import Mathlib

/-!
Verification development for the TAAN member-data scraper
(`Chef'skiss.py`, `scrapping_utils.py`, `config.py`).

The Python code is shallowly embedded: pure helpers become Lean
functions, the mutable scraper object becomes explicit state passing,
and the concurrent Scrape phase becomes a small-step relation over a
state that records each worker task's program counter.  The markup
parser (BeautifulSoup) is an external collaborator; a parsed document
is modelled by the `Page` structure below, which records exactly the
queries the extractor performs on it (title text, the flat list of
`li`/`div`/`p`/`td` elements with their text and first anchor href,
and the table rows).  A `get_text` call that raises is modelled by a
`none` text; Python exceptions become `Except`.
-/

namespace TAAN

/-! ## config.py -/

/-- `MISSING_DATA_PLACEHOLDER = "none"` from `config.py`. -/
def MISSING_DATA_PLACEHOLDER : String := "none"

/-- `RETRY_ATTEMPTS = 3` from `config.py`. -/
def RETRY_ATTEMPTS : Nat := 3

/-! ## String helpers

Python's `in`, `split(sep, 1)`, `strip`, `lower`, `replace` and the
repository's `clean_text` (`scrapping_utils.py`, lines 60-69).  They
are implemented by structural recursion over the character list of the
string, so that every extraction scenario evaluates inside the
kernel. -/

/-- Does the character list start with the pattern? -/
def startsWithL : List Char → List Char → Bool
  | _, [] => true
  | [], _ :: _ => false
  | a :: as, b :: bs => a == b && startsWithL as bs

/-- Substring occurrence on character lists (leftmost scan). -/
def containsL : List Char → List Char → Bool
  | s, pat =>
    if startsWithL s pat then true
    else
      match s with
      | [] => false
      | _ :: t => containsL t pat

/-- Split around the first occurrence of the pattern, when present. -/
def splitFirstL : List Char → List Char → Option (List Char × List Char)
  | s, pat =>
    if startsWithL s pat && !pat.isEmpty then some ([], s.drop pat.length)
    else
      match s with
      | [] => none
      | c :: t =>
        match splitFirstL t pat with
        | some (a, b) => some (c :: a, b)
        | none => none

/-- Left-to-right non-overlapping replacement with fuel (the fuel is
at least the number of consumed characters, so it never runs out). -/
def replaceGo : Nat → List Char → List Char → List Char → List Char
  | 0, s, _, _ => s
  | f + 1, s, pat, rep =>
    if startsWithL s pat && !pat.isEmpty then
      rep ++ replaceGo f (s.drop pat.length) pat rep
    else
      match s with
      | [] => []
      | c :: t => c :: replaceGo f t pat rep

/-- Concatenate the pieces with the separator between them. -/
def intercalateL (sep : List Char) : List (List Char) → List Char
  | [] => []
  | [x] => x
  | x :: xs => x ++ sep ++ intercalateL sep xs

/-- Split at every character satisfying `p` (segments may be empty). -/
def splitPredL (p : Char → Bool) : List Char → List (List Char)
  | [] => [[]]
  | c :: t =>
    let r := splitPredL p t
    if p c then [] :: r
    else
      match r with
      | h :: rest => (c :: h) :: rest
      | [] => [[c]]

/-- Python substring test `sub in s`. -/
def containsSub (s sub : String) : Bool :=
  containsL s.data sub.data

/-- Python `s.split(sep, 1)`: split on the first occurrence only. -/
def splitFirstOn (s sep : String) : List String :=
  match splitFirstL s.data sep.data with
  | none => [s]
  | some (a, b) => [String.mk a, String.mk b]

/-- Python `s.strip()`: drop leading and trailing whitespace. -/
def pyStrip (s : String) : String :=
  String.mk
    (((s.data.dropWhile Char.isWhitespace).reverse.dropWhile Char.isWhitespace).reverse)

/-- Python `s.lower()`. -/
def pyLower (s : String) : String :=
  String.mk (s.data.map Char.toLower)

/-- Python `s.replace(pat, rep)`: replace every occurrence. -/
def pyReplace (s pat rep : String) : String :=
  String.mk (replaceGo s.data.length s.data pat.data rep.data)

/-- `clean_text` from `scrapping_utils.py`: empty input or an input
that is all whitespace becomes the placeholder; otherwise whitespace
runs collapse to single spaces and the ends are trimmed
(`' '.join(text.strip().split())`). -/
def clean_text (text : String) : String :=
  if text = "" then MISSING_DATA_PLACEHOLDER
  else
    let pieces := (splitPredL Char.isWhitespace text.data).filter (fun w => !w.isEmpty)
    if pieces.isEmpty then MISSING_DATA_PLACEHOLDER
    else String.mk (intercalateL [' '] pieces)

/-! ## The MemberRecord

`DATA_FIELDS` of `config.py` lists 14 field names; `extract_member_data`
initialises each to the placeholder. -/

/-- One field of `DATA_FIELDS` (`config.py`, lines 48-63). -/
inductive FieldName where
  | orgName
  | regNumber
  | vatNumber
  | address
  | country
  | websiteUrl
  | email
  | telephone
  | mobile
  | fax
  | poBox
  | keyPerson
  | estDate
  | memberType
deriving DecidableEq

/-- The `data` dict built by `extract_member_data`: one string per
field of `DATA_FIELDS`. -/
structure MemberRecord where
  orgName : String
  regNumber : String
  vatNumber : String
  address : String
  country : String
  websiteUrl : String
  email : String
  telephone : String
  mobile : String
  fax : String
  poBox : String
  keyPerson : String
  estDate : String
  memberType : String
deriving DecidableEq

/-- The record after the `for field in DATA_FIELDS` initialisation
loop: every field holds the placeholder. -/
def initRecord : MemberRecord :=
  { orgName := MISSING_DATA_PLACEHOLDER
    regNumber := MISSING_DATA_PLACEHOLDER
    vatNumber := MISSING_DATA_PLACEHOLDER
    address := MISSING_DATA_PLACEHOLDER
    country := MISSING_DATA_PLACEHOLDER
    websiteUrl := MISSING_DATA_PLACEHOLDER
    email := MISSING_DATA_PLACEHOLDER
    telephone := MISSING_DATA_PLACEHOLDER
    mobile := MISSING_DATA_PLACEHOLDER
    fax := MISSING_DATA_PLACEHOLDER
    poBox := MISSING_DATA_PLACEHOLDER
    keyPerson := MISSING_DATA_PLACEHOLDER
    estDate := MISSING_DATA_PLACEHOLDER
    memberType := MISSING_DATA_PLACEHOLDER }

/-- `data.values()` in `DATA_FIELDS` order. -/
def MemberRecord.values (r : MemberRecord) : List String :=
  [r.orgName, r.regNumber, r.vatNumber, r.address, r.country,
   r.websiteUrl, r.email, r.telephone, r.mobile, r.fax, r.poBox,
   r.keyPerson, r.estDate, r.memberType]

/-! ## The label-matching rule chains

Both `elif` chains of `extract_member_data` are first-match-wins
substring dispatches on the lower-cased label, so each is embedded as
an ordered list of (predicate, field) rules evaluated top to bottom
(the list-scan chain is `scrapping_utils.py` lines 100-135, the
table-scan chain lines 148-175). -/

/-- A label predicate of one `elif` condition. -/
inductive Pred where
  | containsP (sub : String)
  | andP (p q : Pred)
  | orP (p q : Pred)
deriving DecidableEq

/-- Evaluate a label predicate on a (lower-cased, stripped) key. -/
def Pred.eval : Pred → String → Bool
  | Pred.containsP sub, key => containsSub key sub
  | Pred.andP p q, key => p.eval key && q.eval key
  | Pred.orP p q, key => p.eval key || q.eval key

/-- An ordered first-match-wins rule list. -/
abbrev Chain : Type := List (Pred × FieldName)

/-- Run a rule chain on a key: the first rule whose predicate holds
names the field to assign. -/
def applyChain : Chain → String → Option FieldName
  | [], _ => none
  | (p, f) :: rest, key =>
    if p.eval key then some f else applyChain rest key

/-- The list-scan `elif` chain (`scrapping_utils.py` lines 100-135),
in source order. -/
def listChain : Chain :=
  [(Pred.containsP "organization name", FieldName.orgName),
   (Pred.andP (Pred.containsP "reg") (Pred.containsP "no"), FieldName.regNumber),
   (Pred.containsP "vat", FieldName.vatNumber),
   (Pred.containsP "address", FieldName.address),
   (Pred.containsP "country", FieldName.country),
   (Pred.orP (Pred.containsP "website") (Pred.containsP "url"), FieldName.websiteUrl),
   (Pred.containsP "email", FieldName.email),
   (Pred.containsP "telephone", FieldName.telephone),
   (Pred.containsP "mobile", FieldName.mobile),
   (Pred.containsP "fax", FieldName.fax),
   (Pred.orP (Pred.containsP "po box") (Pred.containsP "p.o"), FieldName.poBox),
   (Pred.containsP "key person", FieldName.keyPerson),
   (Pred.orP (Pred.containsP "establishment") (Pred.containsP "date"), FieldName.estDate)]

/-- The table-scan `elif` chain (`scrapping_utils.py` lines 148-175),
in source order. -/
def tableChain : Chain :=
  [(Pred.containsP "organization name", FieldName.orgName),
   (Pred.containsP "reg", FieldName.regNumber),
   (Pred.containsP "address", FieldName.address),
   (Pred.containsP "country", FieldName.country),
   (Pred.containsP "website", FieldName.websiteUrl),
   (Pred.containsP "email", FieldName.email),
   (Pred.containsP "telephone", FieldName.telephone),
   (Pred.containsP "mobile", FieldName.mobile),
   (Pred.orP (Pred.containsP "p.o") (Pred.containsP "po box"), FieldName.poBox),
   (Pred.containsP "key person", FieldName.keyPerson)]

/-! ## The parsed-page model -/

/-- A markup element as `extract_member_data` queries it:
`text = none` models a `get_text()` call that raises;
`href` is `elem.find('a').get('href')`, with `none` when the element
holds no anchor or the anchor has no href attribute. -/
structure Elem where
  text : Option String
  href : Option String
deriving DecidableEq

/-- A parsed detail page.  `title` is `soup.find('h1') or
soup.find('title')`; `items` is `soup.find_all(['li','div','p','td'])`
in document order (so table cells also occur here, as BeautifulSoup
returns them); `tables` lists, per `<table>`, the rows, each row being
its `td`/`th` cells. -/
structure Page where
  title : Option Elem
  items : List Elem
  tables : List (List (List Elem))
deriving DecidableEq

/-! ## extract_member_data (`scrapping_utils.py` lines 71-180)

The Python body is a `try` around all extraction work; an exception
anywhere inside returns the `data` dict built so far.  That control
flow is embedded with `Except MemberRecord MemberRecord`: `ok d` is
normal completion with record `d`, `error d` is the caught exception
with the partially filled record `d`. -/

/-- Write `value` to the field named by a matched rule.  The Website
and Email rules are special-cased exactly as the source is: they
prefer the element's anchor href (Email only for a `mailto:` href,
which is stripped of every `mailto:` occurrence, as `str.replace`
does). -/
def assignField (anchorElem : Elem) (value : String) (d : MemberRecord) :
    FieldName → MemberRecord
  | FieldName.orgName => { d with orgName := value }
  | FieldName.regNumber => { d with regNumber := value }
  | FieldName.vatNumber => { d with vatNumber := value }
  | FieldName.address => { d with address := value }
  | FieldName.country => { d with country := value }
  | FieldName.websiteUrl =>
    match anchorElem.href with
    | some h => if h != "" then { d with websiteUrl := h } else { d with websiteUrl := value }
    | none => { d with websiteUrl := value }
  | FieldName.email =>
    match anchorElem.href with
    | some h =>
      if h != "" && containsSub h "mailto:" then
        { d with email := pyReplace h "mailto:" "" }
      else { d with email := value }
    | none => { d with email := value }
  | FieldName.telephone => { d with telephone := value }
  | FieldName.mobile => { d with mobile := value }
  | FieldName.fax => { d with fax := value }
  | FieldName.poBox => { d with poBox := value }
  | FieldName.keyPerson => { d with keyPerson := value }
  | FieldName.estDate => { d with estDate := value }
  | FieldName.memberType => { d with memberType := value }

/-- One iteration of the list-scan loop (`for item in list_items`). -/
def listScanStep (d : MemberRecord) (item : Elem) : Except MemberRecord MemberRecord :=
  match item.text with
  | none => Except.error d
  | some raw =>
    let text := pyStrip raw
    if containsSub text ":" then
      match splitFirstOn text ":" with
      | [k, v] =>
        let key := pyLower (pyStrip k)
        let value := clean_text v
        match applyChain listChain key with
        | some f => Except.ok (assignField item value d f)
        | none => Except.ok d
      | _ => Except.ok d
    else Except.ok d

/-- One iteration of the table-scan loop (`for row in rows`): column 0
is the label (colon removed), column 1 the value; rows with fewer than
2 cells are skipped. -/
def tableRowStep (d : MemberRecord) (row : List Elem) : Except MemberRecord MemberRecord :=
  match row with
  | c0 :: c1 :: _ =>
    match c0.text, c1.text with
    | some t0, some t1 =>
      let key := pyReplace (pyLower (pyStrip t0)) ":" ""
      let value := clean_text t1
      match applyChain tableChain key with
      | some f => Except.ok (assignField c1 value d f)
      | none => Except.ok d
    | _, _ => Except.error d
  | _ => Except.ok d

/-- Fold a loop body that can raise over a list, short-circuiting on
the first exception. -/
def foldExcept (step : MemberRecord → α → Except MemberRecord MemberRecord) :
    MemberRecord → List α → Except MemberRecord MemberRecord
  | d, [] => Except.ok d
  | d, x :: xs =>
    match step d x with
    | Except.ok d2 => foldExcept step d2 xs
    | Except.error e => Except.error e

/-- The title/heading heuristic (`soup.find('h1') or soup.find('title')`). -/
def titleStep (page : Page) (d : MemberRecord) : Except MemberRecord MemberRecord :=
  match page.title with
  | none => Except.ok d
  | some e =>
    match e.text with
    | none => Except.error d
    | some t =>
      let org := clean_text t
      if org != MISSING_DATA_PLACEHOLDER then Except.ok { d with orgName := org }
      else Except.ok d

/-- The body of the `try` block of `extract_member_data`: placeholder
initialisation, title heuristic, list-scan, then table-scan. -/
def extractCore (page : Page) : Except MemberRecord MemberRecord :=
  match titleStep page initRecord with
  | Except.error d => Except.error d
  | Except.ok d =>
    match foldExcept listScanStep d page.items with
    | Except.error d2 => Except.error d2
    | Except.ok d2 => foldExcept tableRowStep d2 page.tables.flatten

/-- `extract_member_data`: the surrounding `try`/`except` returns the
record built so far whether or not an exception was raised. -/
def extract_member_data (page : Page) : MemberRecord :=
  match extractCore page with
  | Except.ok d => d
  | Except.error d => d

/-! ## validate_data (`scrapping_utils.py` lines 182-193) -/

/-- `validate_data`: reject when Organization Name is the placeholder,
else require at least 3 non-placeholder fields. -/
def validate_data (r : MemberRecord) : Bool :=
  if r.orgName == MISSING_DATA_PLACEHOLDER then false
  else decide (3 ≤ r.values.countP (fun v => v != MISSING_DATA_PLACEHOLDER))

/-! ## extract_member_urls (`scrapping_utils.py` lines 43-58)

A listing page is modelled by the list of its anchors' href
attributes (`none` for an anchor without the attribute); `urljoin` is
an external collaborator and is passed in as `resolve`. -/

/-- The `find_all` href lambda: `x and '/members/' in x and
x != '/members/'` (with Python truthiness on `None` and `""`). -/
def hrefOk (x : Option String) : Bool :=
  match x with
  | none => false
  | some s => s != "" && containsSub s "/members/" && s != "/members/"

/-- `extract_member_urls`: filter the anchors, re-check the href,
resolve against the base URL and append unless already present. -/
def extract_member_urls (resolve : String → String) (hrefs : List (Option String)) :
    List String :=
  (hrefs.filter hrefOk).foldl
    (fun acc h =>
      match h with
      | some href =>
        if href != "" && containsSub href "/members/" then
          let full := resolve href
          if acc.contains full then acc else acc ++ [full]
        else acc
      | none => acc) []

/-- Spec-side order-preserving deduplication: keep each URL at its
first occurrence. -/
def dedupFirstSeen (l : List String) : List String :=
  l.foldl (fun acc x => if acc.contains x then acc else acc ++ [x]) []

/-- Modelled from the spec's words (for the refinement claim about
`extract_member_urls`): the resolved hrefs of exactly those anchors
whose href contains the `/members/` marker and is not the bare
`/members/` self-link, in first-seen order with duplicates removed. -/
def memberUrlsSpec (resolve : String → String) (hrefs : List (Option String)) :
    List String :=
  dedupFirstSeen
    (((hrefs.filterMap id).filter
        (fun h => containsSub h "/members/" && h != "/members/")).map resolve)

/-! ## safe_request (`scrapping_utils.py` lines 27-41)

The loop `for attempt in range(max_retries)` is embedded with the pair
(current attempt index, remaining iterations).  The network is an
oracle from attempt index to an optional response body; sleeps and
requests are recorded in an event trace so the claim about delays and
backoff is statable.  Returning `Option` (never throwing) is the
embedding of "the caught `RequestException` never propagates". -/

/-- One observable action of `safe_request`: the fixed politeness
sleep, an issued request (by attempt index), or a backoff sleep of the
recorded number of seconds. -/
inductive FetchEvent where
  | politeness
  | request (i : Nat)
  | backoff (seconds : Nat)
deriving DecidableEq

/-- The loop body of `safe_request` at attempt `i` with `r + 1`
iterations remaining (`r = 0` means `i` is the last attempt). -/
def safeRequestGo (oracle : Nat → Option String) :
    Nat → Nat → List FetchEvent × Option String
  | _, 0 => ([], none)
  | i, r + 1 =>
    match oracle i with
    | some resp => ([FetchEvent.politeness, FetchEvent.request i], some resp)
    | none =>
      if r = 0 then ([FetchEvent.politeness, FetchEvent.request i], none)
      else
        let rest := safeRequestGo oracle (i + 1) r
        (FetchEvent.politeness :: FetchEvent.request i ::
           FetchEvent.backoff (2 ^ i) :: rest.1,
         rest.2)

/-- `safe_request`: run the retry loop from attempt 0. -/
def safe_request (oracle : Nat → Option String) (max_retries : Nat) :
    List FetchEvent × Option String :=
  safeRequestGo oracle 0 max_retries

/-- Number of requests actually issued in a trace. -/
def requestCount (tr : List FetchEvent) : Nat :=
  tr.countP fun e =>
    match e with
    | FetchEvent.request _ => true
    | _ => false

/-- Every issued request is immediately preceded by the politeness
sleep. -/
def politeOk : List FetchEvent → Bool
  | [] => true
  | FetchEvent.politeness :: FetchEvent.request _ :: rest => politeOk rest
  | FetchEvent.request _ :: _ => false
  | _ :: rest => politeOk rest

/-- Every backoff sleep immediately follows the request of attempt `i`
and lasts `2 ^ i` seconds. -/
def backoffOk : List FetchEvent → Bool
  | [] => true
  | FetchEvent.request i :: FetchEvent.backoff s :: rest =>
    s == 2 ^ i && backoffOk rest
  | FetchEvent.backoff _ :: _ => false
  | _ :: rest => backoffOk rest

/-! ## The scraper's shared state, sequentially
(`Chef'skiss.py`, class `TAANScraper`)

`scrape_member_data` (lines 106-140) is the worker body; the retry
pass (lines 241-262) calls it sequentially.  The fetcher is an oracle
from (URL, number of earlier fetches of that URL) to an optional
parsed page, so a stub that fails the first call and succeeds the
second is expressible.  `fetchLog` is the ghost trace of fetches
actually attempted, and each appended record is ghost-tagged with the
URL it came from; neither ghost influences control flow. -/

/-- The mutable fields of `TAANScraper` touched by the Scrape and
Retry passes, plus the ghost fetch log. -/
structure SState where
  scraped_urls : List String
  scraped_data : List (String × MemberRecord)
  failed_urls : List String
  progress_counter : Nat
  fetchLog : List String
deriving DecidableEq

/-- The state of a freshly constructed `TAANScraper`. -/
def initSState : SState :=
  { scraped_urls := []
    scraped_data := []
    failed_urls := []
    progress_counter := 0
    fetchLog := [] }

/-- `scrape_member_data` run atomically: duplicate check-and-insert,
fetch, extract, set Member Type, increment the progress counter.
Returns the Python return value (`none` for the empty dict `{}`) and
the updated state. -/
def scrape_member_data (fetch : String → Nat → Option Page) (st : SState)
    (url mtype : String) : Option MemberRecord × SState :=
  if url ∈ st.scraped_urls then (none, st)
  else
    let st1 := { st with scraped_urls := url :: st.scraped_urls }
    let n := st1.fetchLog.countP (fun v => v == url)
    let st2 := { st1 with fetchLog := st1.fetchLog ++ [url] }
    match fetch url n with
    | none => (none, { st2 with failed_urls := st2.failed_urls ++ [url] })
    | some page =>
      (some { extract_member_data page with memberType := mtype },
       { st2 with progress_counter := st2.progress_counter + 1 })

/-- The main Scrape pass of `scrape_all_members` (lines 168-183) in
the sequential interleaving: one `scrape_member_data` per URL, the
truthy results appended to `scraped_data`. -/
def scrape_all_members (fetch : String → Nat → Option Page)
    (url_to_type : String → String) (urls : List String) (st : SState) : SState :=
  urls.foldl
    (fun st url =>
      match scrape_member_data fetch st url (url_to_type url) with
      | (some d, st2) => { st2 with scraped_data := st2.scraped_data ++ [(url, d)] }
      | (none, st2) => st2) st

/-- `retry_failed_urls` (lines 241-262): copy then clear the failure
list, re-call `scrape_member_data` for each failed URL, extend
`scraped_data` with the truthy results. -/
def retry_failed_urls (fetch : String → Nat → Option Page)
    (url_to_type : String → String) (st : SState) : SState :=
  if st.failed_urls.isEmpty then st
  else
    let failed_copy := st.failed_urls
    let st1 := { st with failed_urls := [] }
    let res := failed_copy.foldl
      (fun (p : SState × List (String × MemberRecord)) url =>
        match scrape_member_data fetch p.1 url (url_to_type url) with
        | (some d, st2) => (st2, p.2 ++ [(url, d)])
        | (none, st2) => (st2, p.2)) (st1, [])
    { res.1 with scraped_data := res.1.scraped_data ++ res.2 }

/-! ## The concurrent Scrape phase as a step relation

Each submitted task runs `scrape_member_data` for one URL; the lock
serialises the check-and-insert, the progress increment, and the
result append (the append is performed by the `as_completed` loop of
`scrape_all_members` after the worker returned).  A task is a program
counter plus its URL and member type; one atomic step corresponds to
one lock-protected region (fetching and extraction touch no shared
state, so they are folded into the step that records their outcome). -/

/-- Program counter of one worker task. -/
inductive TaskPC where
  /-- submitted, `scrape_member_data` not yet entered the lock -/
  | start
  /-- passed the duplicate check and inserted its URL -/
  | inserted
  /-- fetch succeeded and the record was extracted -/
  | extracted (d : MemberRecord)
  /-- progress counter incremented, record returned, not yet appended -/
  | workerDone (d : MemberRecord)
  /-- duplicate: returned the empty dict at the check -/
  | doneDup
  /-- fetch failed: URL appended to the failure list, returned empty -/
  | doneFailed
  /-- record appended to `scraped_data` by the completion loop -/
  | finished
deriving DecidableEq

/-- One submitted scrape task. -/
structure Task where
  url : String
  mtype : String
  pc : TaskPC
deriving DecidableEq

/-- The shared scraper state together with all task program counters. -/
structure CState where
  scraped_urls : List String
  scraped_data : List (String × MemberRecord)
  failed_urls : List String
  progress_counter : Nat
  fetchLog : List String
  tasks : List Task
deriving DecidableEq

/-- Initial state of the Scrape phase: fresh shared state, one task at
`start` per (URL, member type) pair handed to the executor. -/
def initCState (us : List (String × String)) : CState :=
  { scraped_urls := []
    scraped_data := []
    failed_urls := []
    progress_counter := 0
    fetchLog := []
    tasks := us.map fun p => { url := p.1, mtype := p.2, pc := TaskPC.start } }

/-- The record a successful worker produces for `page`:
`data = extract_member_data(soup)` followed by
`data['Member Type'] = member_type`. -/
def scrapedRecord (page : Page) (mtype : String) : MemberRecord :=
  { extract_member_data page with memberType := mtype }

/-- One atomic step of the Scrape phase; the stepping task is singled
out by the decomposition `tasks = l1 ++ t :: l2`. -/
inductive Step (fetch : String → Option Page) : CState → CState → Prop where
  /-- `if member_url in self.scraped_urls: return {}` (under the lock). -/
  | checkDup (s : CState) (l1 l2 : List Task) (t : Task)
      (hts : s.tasks = l1 ++ t :: l2) (hpc : t.pc = TaskPC.start)
      (hv : t.url ∈ s.scraped_urls) :
      Step fetch s { s with tasks := l1 ++ { t with pc := TaskPC.doneDup } :: l2 }
  /-- `self.scraped_urls.add(member_url)` (under the lock). -/
  | checkInsert (s : CState) (l1 l2 : List Task) (t : Task)
      (hts : s.tasks = l1 ++ t :: l2) (hpc : t.pc = TaskPC.start)
      (hv : t.url ∉ s.scraped_urls) :
      Step fetch s { s with
        scraped_urls := t.url :: s.scraped_urls,
        tasks := l1 ++ { t with pc := TaskPC.inserted } :: l2 }
  /-- `safe_request` returned `None`: record the failure, return `{}`. -/
  | fetchFail (s : CState) (l1 l2 : List Task) (t : Task)
      (hts : s.tasks = l1 ++ t :: l2) (hpc : t.pc = TaskPC.inserted)
      (hf : fetch t.url = none) :
      Step fetch s { s with
        failed_urls := s.failed_urls ++ [t.url],
        fetchLog := s.fetchLog ++ [t.url],
        tasks := l1 ++ { t with pc := TaskPC.doneFailed } :: l2 }
  /-- fetch succeeded; extraction and the Member Type assignment touch
  only task-local data. -/
  | fetchOk (s : CState) (l1 l2 : List Task) (t : Task) (page : Page)
      (hts : s.tasks = l1 ++ t :: l2) (hpc : t.pc = TaskPC.inserted)
      (hf : fetch t.url = some page) :
      Step fetch s { s with
        fetchLog := s.fetchLog ++ [t.url],
        tasks := l1 ++
          { t with pc := TaskPC.extracted (scrapedRecord page t.mtype) } :: l2 }
  /-- `self.progress_counter += 1` (under the lock), then the worker
  returns its record. -/
  | incr (s : CState) (l1 l2 : List Task) (t : Task) (d : MemberRecord)
      (hts : s.tasks = l1 ++ t :: l2) (hpc : t.pc = TaskPC.extracted d) :
      Step fetch s { s with
        progress_counter := s.progress_counter + 1,
        tasks := l1 ++ { t with pc := TaskPC.workerDone d } :: l2 }
  /-- the `as_completed` loop appends the truthy result (under the lock). -/
  | append (s : CState) (l1 l2 : List Task) (t : Task) (d : MemberRecord)
      (hts : s.tasks = l1 ++ t :: l2) (hpc : t.pc = TaskPC.workerDone d) :
      Step fetch s { s with
        scraped_data := s.scraped_data ++ [(t.url, d)],
        tasks := l1 ++ { t with pc := TaskPC.finished } :: l2 }

/-- Reachability in the Scrape phase. -/
def Reachable (fetch : String → Option Page) : CState → CState → Prop :=
  Relation.ReflTransGen (Step fetch)

/-! ### Counting helpers over the concurrent state -/

/-- Has the task claimed its URL (passed the check-and-insert)? -/
def TaskPC.isEngaged : TaskPC → Bool
  | TaskPC.start => false
  | TaskPC.doneDup => false
  | _ => true

/-- Is the task between insertion and the fetch outcome? -/
def TaskPC.isInserted : TaskPC → Bool
  | TaskPC.inserted => true
  | _ => false

/-- Does the task hold an extracted record not yet appended? -/
def TaskPC.isWip : TaskPC → Bool
  | TaskPC.extracted _ => true
  | TaskPC.workerDone _ => true
  | _ => false

/-- Extracted-record tasks, appended or not. -/
def TaskPC.isWipOrFin : TaskPC → Bool
  | TaskPC.extracted _ => true
  | TaskPC.workerDone _ => true
  | TaskPC.finished => true
  | _ => false

/-- Has the worker returned a record that is not yet appended? -/
def TaskPC.isWorkerDone : TaskPC → Bool
  | TaskPC.workerDone _ => true
  | _ => false

/-- Has the task's record been appended? -/
def TaskPC.isFinished : TaskPC → Bool
  | TaskPC.finished => true
  | _ => false

/-- Is the task finished (any of the three terminal counters)? -/
def TaskPC.isTerminal : TaskPC → Bool
  | TaskPC.doneDup => true
  | TaskPC.doneFailed => true
  | TaskPC.finished => true
  | _ => false

/-- Number of tasks for URL `u` whose counter satisfies `p`. -/
def ctP (ts : List Task) (u : String) (p : TaskPC → Bool) : Nat :=
  ts.countP fun t => t.url == u && p t.pc

/-- Number of occurrences of `u` in a list of URLs. -/
def scount (l : List String) (u : String) : Nat :=
  l.countP fun v => v == u

/-- Number of stored records that came from URL `u`. -/
def recCount (rows : List (String × MemberRecord)) (u : String) : Nat :=
  rows.countP fun e => e.1 == u

/-! ## Invariants of the concurrent Scrape phase -/

/-- The progress counter equals the stored records plus the records
already returned by their worker but not yet appended by the
completion loop: the counter runs ahead of `scraped_data`, never
behind it. -/
def progressInv (s : CState) : Prop :=
  s.scraped_data.length + s.tasks.countP (fun t => t.pc.isWorkerDone) =
    s.progress_counter

/-- The visited-set exclusivity invariant: per URL, at most one task
ever passes the check-and-insert, fetches and records are bounded by
that task, a URL is in the visited set exactly when some task claimed
it, failed tasks really saw a failing fetch, and duplicate-skipped
tasks really saw their URL already visited. -/
def visitedInv (fetch : String → Option Page) (s : CState) : Prop :=
  (∀ u, ctP s.tasks u TaskPC.isEngaged ≤ 1) ∧
  (∀ u, u ∉ s.scraped_urls → ctP s.tasks u TaskPC.isEngaged = 0) ∧
  (∀ u, u ∈ s.scraped_urls → 1 ≤ ctP s.tasks u TaskPC.isEngaged) ∧
  (∀ u, scount s.fetchLog u + ctP s.tasks u TaskPC.isInserted ≤
          ctP s.tasks u TaskPC.isEngaged) ∧
  (∀ u, recCount s.scraped_data u + ctP s.tasks u TaskPC.isWip ≤
          ctP s.tasks u TaskPC.isWipOrFin) ∧
  (∀ u, ctP s.tasks u TaskPC.isFinished ≤ recCount s.scraped_data u) ∧
  (∀ t ∈ s.tasks, t.pc = TaskPC.doneFailed → fetch t.url = none) ∧
  (∀ t ∈ s.tasks, t.pc = TaskPC.doneDup → t.url ∈ s.scraped_urls)

/-! ## Concrete inputs used by the claim scenarios -/

/-- A detail page with no title, no items and no tables. -/
def pageEmpty : Page := { title := none, items := [], tables := [] }

/-- A fetcher stub that fails the first call for every URL and
succeeds (with `page`) from the second call on. -/
def flaky (page : Page) : String → Nat → Option Page :=
  fun _ n => if n = 0 then none else some page

/-- The shared state after the main Scrape pass over the single URL
`"u"` against the `flaky` fetcher. -/
def c1mid : SState :=
  scrape_all_members (flaky pageEmpty) (fun _ => "General") ["u"] initSState

/-- The shared state after the subsequent Retry pass. -/
def c1fin : SState :=
  retry_failed_urls (flaky pageEmpty) (fun _ => "General") c1mid

/-- The `<table><tr><td>Reg. No:</td><td>12345</td></tr></table>`
scenario: BeautifulSoup returns the two `td` cells both in
`find_all(['li','div','p','td'])` and in the table walk. -/
def c8page : Page :=
  { title := none,
    items := [{ text := some "Reg. No:", href := none },
              { text := some "12345", href := none }],
    tables := [[[{ text := some "Reg. No:", href := none },
                 { text := some "12345", href := none }]]] }

/-- A detail page whose only content is a table row with column-0
label `Mobile` and column-1 value `999` (the two cells appear in
`items` as well, but carry no colon, so the list-scan skips them). -/
def c3page : Page :=
  { title := none,
    items := [{ text := some "Mobile", href := none },
              { text := some "999", href := none }],
    tables := [[[{ text := some "Mobile", href := none },
                 { text := some "999", href := none }]]] }

/-- A page whose first item assigns Fax and whose second item raises
inside `get_text()`. -/
def c2page : Page :=
  { title := none,
    items := [{ text := some "Fax: 123", href := none },
              { text := none, href := none }],
    tables := [] }

/-- The record `extract_member_data` builds for `c2page` before the
exception: only Fax was extracted. -/
def c2err : MemberRecord := { initRecord with fax := "123" }

/-- A state whose visited set already holds `"u"`. -/
def stWithU : SState := { initSState with scraped_urls := ["u"] }

/-- Modelled from the spec's words (for the rule-set comparison claim):
the table-scan rule list as the spec describes a corrected version of
it — the list-scan rules minus the VAT Number, Fax and Establishment
Date mappings, with the Registration Number predicate weakened to
`"reg"` alone, the Website predicate to `"website"` alone, and the PO
Box disjuncts in swapped order. -/
def tableTrim (c : Chain) : Chain :=
  (c.filter fun rule =>
      !(rule.2 == FieldName.vatNumber || rule.2 == FieldName.fax ||
        rule.2 == FieldName.estDate)).map
    fun rule =>
      match rule.2 with
      | FieldName.regNumber => (Pred.containsP "reg", FieldName.regNumber)
      | FieldName.websiteUrl => (Pred.containsP "website", FieldName.websiteUrl)
      | FieldName.poBox =>
        (Pred.orP (Pred.containsP "p.o") (Pred.containsP "po box"), FieldName.poBox)
      | _ => rule

/-- A per-URL fetcher that always succeeds with the empty page. -/
def fetchAlways : String → Option Page := fun _ => some pageEmpty

/-- A per-URL fetcher that always fails. -/
def fetchNever : String → Option Page := fun _ => none

/-- The record a worker produces for the empty page under member type
`General`. -/
def recEmptyGeneral : MemberRecord := scrapedRecord pageEmpty "General"

/-- A reachable mid-run state of the Scrape phase over the single URL
`"u"`: the worker has fetched, extracted and incremented the progress
counter, but the completion loop has not yet appended the record. -/
def c4bad : CState :=
  { scraped_urls := ["u"]
    scraped_data := []
    failed_urls := []
    progress_counter := 1
    fetchLog := ["u"]
    tasks := [{ url := "u", mtype := "General", pc := TaskPC.workerDone recEmptyGeneral }] }

/-- The terminal state of a Scrape phase given the URL `"u"` twice
against the always-failing fetcher: one task claimed and failed, the
other was skipped as a duplicate; no record exists. -/
def c5bad : CState :=
  { scraped_urls := ["u"]
    scraped_data := []
    failed_urls := ["u"]
    progress_counter := 0
    fetchLog := ["u"]
    tasks := [{ url := "u", mtype := "General", pc := TaskPC.doneFailed },
              { url := "u", mtype := "General", pc := TaskPC.doneDup }] }

/-- The terminal state of a Scrape phase given the URL `"u"` twice
against the always-succeeding fetcher: one task produced the record,
the other was skipped as a duplicate. -/
def c5good : CState :=
  { scraped_urls := ["u"]
    scraped_data := [("u", recEmptyGeneral)]
    failed_urls := []
    progress_counter := 1
    fetchLog := ["u"]
    tasks := [{ url := "u", mtype := "General", pc := TaskPC.finished },
              { url := "u", mtype := "General", pc := TaskPC.doneDup }] }

/-! # Helper lemmas -/

theorem ctP_middle (l1 l2 : List Task) (t : Task) (u : String) (p : TaskPC → Bool) :
    ctP (l1 ++ t :: l2) u p =
      ctP l1 u p + ctP l2 u p + (if t.url == u && p t.pc then 1 else 0) := by
  simp [ctP, List.countP_append, List.countP_cons]
  omega

theorem ctP_mono {p q : TaskPC → Bool} (ts : List Task) (u : String)
    (hpq : ∀ pc, p pc = true → q pc = true) : ctP ts u p ≤ ctP ts u q := by
  apply List.countP_mono_left
  intro t ht hb
  rw [Bool.and_eq_true] at hb ⊢
  exact ⟨hb.1, hpq _ hb.2⟩

theorem inserted_engaged : ∀ pc, TaskPC.isInserted pc = true → TaskPC.isEngaged pc = true := by
  intro pc h
  cases pc <;> simp_all [TaskPC.isInserted, TaskPC.isEngaged]

theorem wip_engaged : ∀ pc, TaskPC.isWip pc = true → TaskPC.isEngaged pc = true := by
  intro pc h
  cases pc <;> simp_all [TaskPC.isWip, TaskPC.isEngaged]

theorem wipOrFin_engaged : ∀ pc, TaskPC.isWipOrFin pc = true → TaskPC.isEngaged pc = true := by
  intro pc h
  cases pc <;> simp_all [TaskPC.isWipOrFin, TaskPC.isEngaged]

theorem fin_engaged : ∀ pc, TaskPC.isFinished pc = true → TaskPC.isEngaged pc = true := by
  intro pc h
  cases pc <;> simp_all [TaskPC.isFinished, TaskPC.isEngaged]

/-- `scount` of a one-element extension. -/
theorem scount_snoc (l : List String) (x u : String) :
    scount (l ++ [x]) u = scount l u + (if x == u then 1 else 0) := by
  simp [scount, List.countP_append, List.countP_cons]

/-! # Claim theorems -/

/-- Claim C9: `validate_data` accepts a record exactly when its
Organization Name differs from the placeholder and at least 3 of its
14 fields are non-placeholder; hence any record with fewer than 3
non-placeholder fields, and any record whose Organization Name is the
placeholder, is rejected. -/
theorem c9_validate_data (r : MemberRecord) :
    validate_data r = true ↔
      (r.orgName ≠ MISSING_DATA_PLACEHOLDER ∧
       3 ≤ r.values.countP (fun v => v != MISSING_DATA_PLACEHOLDER)) := by
  unfold validate_data
  by_cases h : r.orgName = MISSING_DATA_PLACEHOLDER <;> simp [h]

/-- Claim C8: on the markup
`<table><tr><td>Reg. No:</td><td>12345</td></tr></table>` the
list-scan first sets Registration Number to the placeholder (the
colon-bearing `td` cell has an empty value part, and `clean_text`
turns it into the placeholder), and the table-scan, applied
afterwards, overwrites it with `"12345"`. -/
theorem c8_reg_no_table :
    (∃ r, foldExcept listScanStep initRecord c8page.items = Except.ok r ∧
            r.regNumber = MISSING_DATA_PLACEHOLDER) ∧
    (extract_member_data c8page).regNumber = "12345" :=
  ⟨⟨_, rfl, rfl⟩, rfl⟩

/-- Claim C3, counterexample: the table-scan chain of
`extract_member_data` does map labels containing `"mobile"` to Mobile
Number — on a page whose only table row is (`Mobile`, `999`) the
extracted Mobile Number is `"999"`, not the placeholder, refuting "the
table-scan does not set Mobile Number". -/
theorem c3_counterexample :
    (extract_member_data c3page).mobile = "999" ∧
    (extract_member_data c3page).mobile ≠ MISSING_DATA_PLACEHOLDER := by
  refine ⟨rfl, ?_⟩
  decide

/-- Claim C3, amended: the table-scan rule list equals the list-scan
rule list minus the VAT Number, Fax and Establishment Date mappings
(not the Mobile Number mapping, which both chains contain), with the
Registration Number predicate weakened to `"reg"` alone, the Website
predicate to `"website"` alone, and the PO Box disjuncts in swapped
order; a column-0 label containing `"mobile"` (and matching no earlier
rule) does set Mobile Number. -/
theorem c3_amended :
    tableChain = tableTrim listChain ∧
    applyChain tableChain "mobile" = some FieldName.mobile := by
  exact ⟨by decide, by decide⟩

/-- Claim C2, counterexample: on a page whose first item assigns Fax
and whose second raises during `get_text()`, the exception is caught,
but the returned record keeps the already-extracted Fax value — it
does not consist entirely of placeholders. -/
theorem c2_counterexample :
    (∃ d, extractCore c2page = Except.error d) ∧
    (extract_member_data c2page).fax = "123" ∧
    (extract_member_data c2page).fax ≠ MISSING_DATA_PLACEHOLDER := by
  refine ⟨⟨_, rfl⟩, rfl, ?_⟩
  decide

/-- Claim C2, amended: a parsing exception during extraction is caught
and `extract_member_data` returns the partially filled record built up
to the failure point instead of propagating; when the exception is
raised before any extraction work (already at the title element), that
record is still entirely placeholders. -/
theorem c2_amended (page : Page) (d : MemberRecord)
    (h : extractCore page = Except.error d) :
    extract_member_data page = d ∧
    (∀ e, page.title = some e → e.text = none → d = initRecord) := by
  constructor
  · unfold extract_member_data
    rw [h]
  · intro e he hn
    unfold extractCore titleStep at h
    rw [he] at h
    simp only [hn] at h
    injection h with h2
    exact h2.symm

/-- Witness for the amended C2 theorem at the concrete page `c2page`. -/
theorem c2_amended_witness :
    extract_member_data c2page = c2err ∧
    (∀ e, c2page.title = some e → e.text = none → c2err = initRecord) :=
  c2_amended c2page c2err rfl

/-! ### extract_member_urls lemmas -/

theorem hrefOk_some (h : String) :
    hrefOk (some h) = (containsSub h "/members/" && h != "/members/") := by
  by_cases hh : h = ""
  · subst hh
    decide
  · have hb : (h != "") = true := bne_iff_ne.mpr hh
    simp [hrefOk, hb]

theorem extract_fold (resolve : String → String) :
    ∀ (hrefs : List (Option String)) (acc : List String),
      (hrefs.filter hrefOk).foldl
        (fun acc h =>
          match h with
          | some href =>
            if href != "" && containsSub href "/members/" then
              let full := resolve href
              if acc.contains full then acc else acc ++ [full]
            else acc
          | none => acc) acc =
      ((hrefs.filterMap id).filter
          (fun h => containsSub h "/members/" && h != "/members/")).foldl
        (fun acc h => if acc.contains (resolve h) then acc
                      else acc ++ [resolve h]) acc := by
  intro hrefs
  induction hrefs with
  | nil => intro acc; rfl
  | cons x t ih =>
    intro acc
    cases x with
    | none =>
      simpa [List.filter_cons, List.filterMap_cons, hrefOk] using ih acc
    | some h =>
      by_cases hP : (containsSub h "/members/" && h != "/members/") = true
      · have hOk : hrefOk (some h) = true := by rw [hrefOk_some]; exact hP
        have hne : h ≠ "" := by
          intro he
          subst he
          revert hP
          decide
        have hsplit := hP
        rw [Bool.and_eq_true] at hsplit
        have hinner : (h != "" && containsSub h "/members/") = true := by
          rw [Bool.and_eq_true]
          exact ⟨bne_iff_ne.mpr hne, hsplit.1⟩
        simp only [List.filter_cons, List.filterMap_cons, hOk, hP, if_true, id]
        simp only [List.foldl_cons, hinner, if_true]
        exact ih _
      · have hOk : hrefOk (some h) = false := by
          rw [hrefOk_some]
          exact Bool.eq_false_iff.mpr hP
        have hPf : (containsSub h "/members/" && h != "/members/") = false :=
          Bool.eq_false_iff.mpr hP
        simp only [List.filter_cons, List.filterMap_cons, hOk, hPf,
          Bool.false_eq_true, if_false, id]
        exact ih acc

theorem dedup_foldl_nodup :
    ∀ (l : List String) (acc : List String), acc.Nodup →
      (l.foldl (fun acc x => if acc.contains x then acc else acc ++ [x]) acc).Nodup := by
  intro l
  induction l with
  | nil => intro acc h; exact h
  | cons x t ih =>
    intro acc hacc
    by_cases hc : x ∈ acc
    · simpa [List.foldl_cons, hc] using ih acc hacc
    · have hn : (acc ++ [x]).Nodup := by simp [List.nodup_append, hacc, hc]
      simpa [List.foldl_cons, hc] using ih _ hn

theorem dedupFirstSeen_nodup (l : List String) : (dedupFirstSeen l).Nodup :=
  dedup_foldl_nodup l [] List.nodup_nil

/-- Claim C7: `extract_member_urls` returns exactly the hrefs that
contain the `/members/` marker and are not the bare `/members/`
self-link, each resolved against the base URL, in first-seen order
with duplicates removed; in particular the result has no duplicates,
so a detail URL referenced twice appears once. -/
theorem c7_extract_member_urls (resolve : String → String)
    (hrefs : List (Option String)) :
    extract_member_urls resolve hrefs = memberUrlsSpec resolve hrefs ∧
    (extract_member_urls resolve hrefs).Nodup := by
  have heq : extract_member_urls resolve hrefs = memberUrlsSpec resolve hrefs := by
    unfold memberUrlsSpec dedupFirstSeen
    rw [List.foldl_map]
    exact extract_fold resolve hrefs []
  refine ⟨heq, ?_⟩
  rw [heq]
  exact dedupFirstSeen_nodup _

/-! ### safe_request lemmas -/

theorem safeRequestGo_requestCount (oracle : Nat → Option String) :
    ∀ r i, requestCount (safeRequestGo oracle i r).1 ≤ r := by
  intro r
  induction r with
  | zero => intro i; simp [safeRequestGo, requestCount]
  | succ n ih =>
    intro i
    cases horacle : oracle i with
    | some resp => simp [safeRequestGo, horacle, requestCount]
    | none =>
      by_cases hn : n = 0
      · subst hn
        simp [safeRequestGo, horacle, requestCount]
      · have hrec := ih (i + 1)
        simp only [requestCount] at hrec
        simp [safeRequestGo, horacle, hn, requestCount, List.countP_cons]
        omega

theorem safeRequestGo_polite (oracle : Nat → Option String) :
    ∀ r i, politeOk (safeRequestGo oracle i r).1 = true := by
  intro r
  induction r with
  | zero => intro i; simp [safeRequestGo, politeOk]
  | succ n ih =>
    intro i
    cases horacle : oracle i with
    | some resp => simp [safeRequestGo, horacle, politeOk]
    | none =>
      by_cases hn : n = 0
      · subst hn
        simp [safeRequestGo, horacle, politeOk]
      · simp only [safeRequestGo, horacle, hn, if_false, politeOk]
        exact ih (i + 1)

theorem safeRequestGo_backoff (oracle : Nat → Option String) :
    ∀ r i, backoffOk (safeRequestGo oracle i r).1 = true := by
  intro r
  induction r with
  | zero => intro i; simp [safeRequestGo, backoffOk]
  | succ n ih =>
    intro i
    cases horacle : oracle i with
    | some resp => simp [safeRequestGo, horacle, backoffOk]
    | none =>
      by_cases hn : n = 0
      · subst hn
        simp [safeRequestGo, horacle, backoffOk]
      · simp only [safeRequestGo, horacle, hn, if_false, backoffOk]
        simp [ih (i + 1)]

theorem safeRequestGo_allFail (oracle : Nat → Option String) :
    ∀ r i, (∀ j, i ≤ j → j < i + r → oracle j = none) →
      (safeRequestGo oracle i r).2 = none := by
  intro r
  induction r with
  | zero => intro i _; simp [safeRequestGo]
  | succ n ih =>
    intro i hall
    have hi : oracle i = none := hall i (Nat.le_refl i) (by omega)
    by_cases hn : n = 0
    · subst hn
      simp [safeRequestGo, hi]
    · simp only [safeRequestGo, hi, hn, if_false]
      exact ih (i + 1) (fun j h1 h2 => hall j (by omega) (by omega))

/-- Claim C6: `safe_request` issues at most `max_retries` requests,
each request is immediately preceded by the fixed politeness sleep,
each backoff sleep lasts `2 ^ attempt` seconds for the failed attempt
it follows (attempts counted from 0), and when every attempt fails the
function returns `None` — the caught request exception never
propagates to the caller (totality of the embedding). -/
theorem c6_safe_request (oracle : Nat → Option String) (m : Nat) :
    requestCount (safe_request oracle m).1 ≤ m ∧
    politeOk (safe_request oracle m).1 = true ∧
    backoffOk (safe_request oracle m).1 = true ∧
    ((∀ i, i < m → oracle i = none) → (safe_request oracle m).2 = none) := by
  refine ⟨safeRequestGo_requestCount oracle m 0, safeRequestGo_polite oracle m 0,
          safeRequestGo_backoff oracle m 0, fun h => ?_⟩
  exact safeRequestGo_allFail oracle m 0 (fun j _ hj => h j (by omega))

/-- Witness for C6 at the always-failing oracle with the configured
`RETRY_ATTEMPTS = 3`. -/
theorem c6_safe_request_witness :
    requestCount (safe_request (fun _ => none) RETRY_ATTEMPTS).1 ≤ RETRY_ATTEMPTS ∧
    politeOk (safe_request (fun _ => none) RETRY_ATTEMPTS).1 = true ∧
    backoffOk (safe_request (fun _ => none) RETRY_ATTEMPTS).1 = true ∧
    (safe_request (fun _ => none) RETRY_ATTEMPTS).2 = none := by
  obtain ⟨h1, h2, h3, h4⟩ := c6_safe_request (fun _ => none) RETRY_ATTEMPTS
  exact ⟨h1, h2, h3, h4 (fun i _ => rfl)⟩

/-- Claim C1 (code bug): over the single URL `"u"` with a fetcher
that fails the first call and succeeds from the second call on, the
main pass records the failure, the fetcher would indeed succeed on the
next attempt, yet after the Retry pass the result collection is still
empty: `retry_failed_urls` finds `"u"` already in `scraped_urls` (it
was inserted before the failed fetch and never removed), so it returns
the empty dict without refetching and recovers nothing. -/
theorem c1_retry_bug :
    c1mid.failed_urls = ["u"] ∧
    flaky pageEmpty "u" (scount c1mid.fetchLog "u") = some pageEmpty ∧
    c1fin.scraped_data = [] ∧
    c1fin.failed_urls = [] :=
  ⟨rfl, rfl, rfl, rfl⟩

/-- Claim C10: `scrape_member_data` inserts the URL into the visited
set before attempting the fetch (so it stays there even when the fetch
fails), the visited set never shrinks across a call, and a call for an
already-visited URL returns the empty dict with the state — fetch log
included — completely unchanged. -/
theorem c10_visited_guard (fetch : String → Nat → Option Page) (st : SState)
    (url mtype : String) :
    (url ∉ st.scraped_urls →
       url ∈ (scrape_member_data fetch st url mtype).2.scraped_urls) ∧
    (∀ v ∈ st.scraped_urls,
       v ∈ (scrape_member_data fetch st url mtype).2.scraped_urls) ∧
    (url ∈ st.scraped_urls → scrape_member_data fetch st url mtype = (none, st)) := by
  by_cases h : url ∈ st.scraped_urls
  · refine ⟨fun hc => absurd h hc, ?_, fun _ => by simp [scrape_member_data, h]⟩
    intro v hv
    simp [scrape_member_data, h, hv]
  · refine ⟨fun _ => ?_, fun v hv => ?_, fun hc => absurd hc h⟩
    · simp only [scrape_member_data, h, if_false]
      cases hf : fetch url (st.fetchLog.countP (fun v => v == url)) <;>
        simp [hf, List.mem_cons]
    · simp only [scrape_member_data, h, if_false]
      cases hf : fetch url (st.fetchLog.countP (fun v => v == url)) <;>
        simp [hf, List.mem_cons, hv]

/-- Witness for C10: insertion on a fresh state, and the unchanged
no-fetch return on a state that has already visited `"u"`. -/
theorem c10_visited_guard_witness :
    "u" ∈ (scrape_member_data (fun _ _ => none) initSState "u" "General").2.scraped_urls ∧
    scrape_member_data (fun _ _ => none) stWithU "u" "General" = (none, stWithU) :=
  ⟨(c10_visited_guard (fun _ _ => none) initSState "u" "General").1 (by simp [initSState]),
   (c10_visited_guard (fun _ _ => none) stWithU "u" "General").2.2
     (by simp [stWithU, initSState])⟩

/-! ### Lemmas on the concurrent Scrape phase -/

theorem ctP_middle_set (l1 l2 : List Task) (t : Task) (npc : TaskPC) (u : String)
    (p : TaskPC → Bool) (hp : p npc = p t.pc) :
    ctP (l1 ++ { t with pc := npc } :: l2) u p = ctP (l1 ++ t :: l2) u p := by
  rw [ctP_middle, ctP_middle]
  dsimp only
  rw [hp]

theorem mem_old {s : CState} {l1 l2 : List Task} {t : Task} {τ : Task}
    (hts : s.tasks = l1 ++ t :: l2) (h : τ ∈ l1 ∨ τ ∈ l2) : τ ∈ s.tasks := by
  rw [hts]
  rcases h with h | h
  · exact List.mem_append_left _ h
  · exact List.mem_append_right _ (List.mem_cons_of_mem _ h)

theorem mem_middle_split {l1 l2 : List Task} {t2 : Task} {τ : Task}
    (h : τ ∈ l1 ++ t2 :: l2) : τ ∈ l1 ∨ τ = t2 ∨ τ ∈ l2 := by
  rcases List.mem_append.mp h with h | h
  · exact Or.inl h
  · rcases List.mem_cons.mp h with h | h
    · exact Or.inr (Or.inl h)
    · exact Or.inr (Or.inr h)

theorem ctP_pos {ts : List Task} {u : String} {p : TaskPC → Bool} (t : Task)
    (ht : t ∈ ts) (hu : t.url = u) (hp : p t.pc = true) : 0 < ctP ts u p := by
  unfold ctP
  apply List.countP_pos_iff.mpr
  refine ⟨t, ht, ?_⟩
  rw [Bool.and_eq_true]
  constructor
  · rw [hu]
    exact beq_self_eq_true u
  · exact hp

theorem ctP_pos_elim {ts : List Task} {u : String} {p : TaskPC → Bool}
    (h : 0 < ctP ts u p) : ∃ t ∈ ts, t.url = u ∧ p t.pc = true := by
  unfold ctP at h
  obtain ⟨t, ht, hb⟩ := List.countP_pos_iff.mp h
  rw [Bool.and_eq_true] at hb
  exact ⟨t, ht, eq_of_beq hb.1, hb.2⟩

theorem progressInv_step {fetch : String → Option Page} {s s2 : CState}
    (h : Step fetch s s2) (hi : progressInv s) : progressInv s2 := by
  cases h with
  | checkDup l1 l2 t hts hpc hv =>
    unfold progressInv at hi ⊢
    rw [hts] at hi
    simp only [List.countP_append, List.countP_cons] at hi ⊢
    simp [hpc, TaskPC.isWorkerDone] at hi ⊢
    omega
  | checkInsert l1 l2 t hts hpc hv =>
    unfold progressInv at hi ⊢
    rw [hts] at hi
    simp only [List.countP_append, List.countP_cons] at hi ⊢
    simp [hpc, TaskPC.isWorkerDone] at hi ⊢
    omega
  | fetchFail l1 l2 t hts hpc hf =>
    unfold progressInv at hi ⊢
    rw [hts] at hi
    simp only [List.countP_append, List.countP_cons] at hi ⊢
    simp [hpc, TaskPC.isWorkerDone] at hi ⊢
    omega
  | fetchOk l1 l2 t page hts hpc hf =>
    unfold progressInv at hi ⊢
    rw [hts] at hi
    simp only [List.countP_append, List.countP_cons] at hi ⊢
    simp [hpc, TaskPC.isWorkerDone] at hi ⊢
    omega
  | incr l1 l2 t d hts hpc =>
    unfold progressInv at hi ⊢
    rw [hts] at hi
    simp only [List.countP_append, List.countP_cons] at hi ⊢
    simp [hpc, TaskPC.isWorkerDone] at hi ⊢
    omega
  | append l1 l2 t d hts hpc =>
    unfold progressInv at hi ⊢
    rw [hts] at hi
    simp only [List.countP_append, List.countP_cons, List.length_append] at hi ⊢
    simp [hpc, TaskPC.isWorkerDone] at hi ⊢
    omega

theorem progressInv_init (us : List (String × String)) :
    progressInv (initCState us) := by
  unfold progressInv initCState
  simp [List.countP_map, Function.comp, TaskPC.isWorkerDone]

theorem progressInv_reachable {fetch : String → Option Page}
    {s0 s : CState} (h : Reachable fetch s0 s) (h0 : progressInv s0) :
    progressInv s := by
  induction h with
  | refl => exact h0
  | tail h1 hstep ih => exact progressInv_step hstep ih

/-- Claim C4, counterexample: a reachable mid-run state of the Scrape
phase over one URL in which the worker has already incremented the
progress counter while the completion loop has not yet appended the
record — the counter (1) exceeds the stored-record count (0), so the
progress counter is not bounded by the result collection. -/
theorem c4_counterexample :
    Reachable fetchAlways (initCState [("u", "General")]) c4bad ∧
    ¬ (c4bad.progress_counter ≤ c4bad.scraped_data.length) := by
  constructor
  · refine Relation.ReflTransGen.head
      (Step.checkInsert _ [] [] { url := "u", mtype := "General", pc := TaskPC.start }
        rfl rfl (by simp [initCState])) ?_
    refine Relation.ReflTransGen.head
      (Step.fetchOk _ [] [] { url := "u", mtype := "General", pc := TaskPC.inserted }
        pageEmpty rfl rfl rfl) ?_
    exact Relation.ReflTransGen.head
      (Step.incr _ [] []
        { url := "u", mtype := "General", pc := TaskPC.extracted recEmptyGeneral }
        recEmptyGeneral rfl rfl)
      Relation.ReflTransGen.refl
  · decide

/-- Claim C4, amended: at every reachable state of the Scrape phase
the number of stored records is at most the progress counter — the
counter is incremented by the worker before the completion loop
appends the record, so progress reporting can run ahead of the stored
results but never behind them (the exact relation is `progressInv`). -/
theorem c4_amended (fetch : String → Option Page) (us : List (String × String))
    (s : CState) (h : Reachable fetch (initCState us) s) :
    s.scraped_data.length ≤ s.progress_counter := by
  have hp : progressInv s := progressInv_reachable h (progressInv_init us)
  unfold progressInv at hp
  omega

/-- Witness for the amended C4 theorem at the initial state of a
one-URL Scrape phase. -/
theorem c4_amended_witness :
    (initCState [("u", "General")]).scraped_data.length ≤
      (initCState [("u", "General")]).progress_counter :=
  c4_amended fetchAlways [("u", "General")] _ Relation.ReflTransGen.refl

/-! ### Preservation of the visited-set exclusivity invariant -/

theorem recCount_snoc (rows : List (String × MemberRecord))
    (x : String × MemberRecord) (u : String) :
    recCount (rows ++ [x]) u = recCount rows u + (if x.1 == u then 1 else 0) := by
  simp [recCount, List.countP_append, List.countP_cons]

theorem visitedInv_step {fetch : String → Option Page} {s s2 : CState}
    (h : Step fetch s s2) (hi : visitedInv fetch s) : visitedInv fetch s2 := by
  obtain ⟨iEng, iOut, iIn, iFetch, iRec, iFin, iFail, iDup⟩ := hi
  cases h with
  | checkDup l1 l2 t hts hpc hv =>
    refine ⟨?_, ?_, ?_, ?_, ?_, ?_, ?_, ?_⟩
    · intro u
      have h1 := iEng u
      rw [hts] at h1
      dsimp only
      rw [ctP_middle_set l1 l2 t TaskPC.doneDup u TaskPC.isEngaged
        (by simp [hpc, TaskPC.isEngaged])]
      exact h1
    · intro u hu
      have h1 := iOut u hu
      rw [hts] at h1
      dsimp only
      rw [ctP_middle_set l1 l2 t TaskPC.doneDup u TaskPC.isEngaged
        (by simp [hpc, TaskPC.isEngaged])]
      exact h1
    · intro u hu
      have h1 := iIn u hu
      rw [hts] at h1
      dsimp only
      rw [ctP_middle_set l1 l2 t TaskPC.doneDup u TaskPC.isEngaged
        (by simp [hpc, TaskPC.isEngaged])]
      exact h1
    · intro u
      have h1 := iFetch u
      rw [hts] at h1
      dsimp only
      rw [ctP_middle_set l1 l2 t TaskPC.doneDup u TaskPC.isInserted
            (by simp [hpc, TaskPC.isInserted]),
          ctP_middle_set l1 l2 t TaskPC.doneDup u TaskPC.isEngaged
            (by simp [hpc, TaskPC.isEngaged])]
      exact h1
    · intro u
      have h1 := iRec u
      rw [hts] at h1
      dsimp only
      rw [ctP_middle_set l1 l2 t TaskPC.doneDup u TaskPC.isWip
            (by simp [hpc, TaskPC.isWip]),
          ctP_middle_set l1 l2 t TaskPC.doneDup u TaskPC.isWipOrFin
            (by simp [hpc, TaskPC.isWipOrFin])]
      exact h1
    · intro u
      have h1 := iFin u
      rw [hts] at h1
      dsimp only
      rw [ctP_middle_set l1 l2 t TaskPC.doneDup u TaskPC.isFinished
        (by simp [hpc, TaskPC.isFinished])]
      exact h1
    · intro τ hτ hfl
      dsimp only at hτ
      rcases mem_middle_split hτ with hm | hm | hm
      · exact iFail τ (mem_old hts (Or.inl hm)) hfl
      · subst hm
        simp at hfl
      · exact iFail τ (mem_old hts (Or.inr hm)) hfl
    · intro τ hτ hdp
      dsimp only at hτ ⊢
      rcases mem_middle_split hτ with hm | hm | hm
      · exact iDup τ (mem_old hts (Or.inl hm)) hdp
      · subst hm
        exact hv
      · exact iDup τ (mem_old hts (Or.inr hm)) hdp
  | checkInsert l1 l2 t hts hpc hv =>
    have hz := iOut t.url hv
    rw [hts, ctP_middle] at hz
    simp only [hpc, TaskPC.isEngaged, Bool.and_false, Bool.false_eq_true,
      if_false, Nat.add_zero] at hz
    have hz1 : ctP l1 t.url TaskPC.isEngaged = 0 := by omega
    have hz2 : ctP l2 t.url TaskPC.isEngaged = 0 := by omega
    have hfz := iFetch t.url
    rw [hts, ctP_middle, ctP_middle] at hfz
    simp only [hpc, TaskPC.isInserted, TaskPC.isEngaged, Bool.and_false,
      Bool.false_eq_true, if_false, Nat.add_zero] at hfz
    have hins1 : ctP l1 t.url TaskPC.isInserted ≤ ctP l1 t.url TaskPC.isEngaged :=
      ctP_mono l1 t.url inserted_engaged
    have hins2 : ctP l2 t.url TaskPC.isInserted ≤ ctP l2 t.url TaskPC.isEngaged :=
      ctP_mono l2 t.url inserted_engaged
    have hscz : scount s.fetchLog t.url = 0 := by omega
    refine ⟨?_, ?_, ?_, ?_, ?_, ?_, ?_, ?_⟩
    · intro u
      dsimp only
      rw [ctP_middle]
      by_cases hu : t.url = u
      · subst hu
        simp only [beq_self_eq_true, Bool.true_and, TaskPC.isEngaged, if_true]
        omega
      · have hne : (t.url == u) = false := beq_eq_false_iff_ne.mpr hu
        have h1 := iEng u
        rw [hts, ctP_middle] at h1
        simp only [hne, Bool.false_and, Bool.false_eq_true, if_false] at h1 ⊢
        omega
    · intro u hu
      dsimp only at hu ⊢
      have hu1 : ¬(u = t.url) ∧ u ∉ s.scraped_urls := by
        simpa [List.mem_cons, not_or] using hu
      have hne : (t.url == u) = false :=
        beq_eq_false_iff_ne.mpr (fun he => hu1.1 he.symm)
      have h1 := iOut u hu1.2
      rw [hts, ctP_middle] at h1
      rw [ctP_middle]
      simp only [hne, Bool.false_and, Bool.false_eq_true, if_false] at h1 ⊢
      omega
    · intro u hu
      dsimp only at hu ⊢
      rw [ctP_middle]
      by_cases hu2 : t.url = u
      · subst hu2
        simp only [beq_self_eq_true, Bool.true_and, TaskPC.isEngaged, if_true]
        omega
      · have hne : (t.url == u) = false := beq_eq_false_iff_ne.mpr hu2
        have hm : u ∈ s.scraped_urls := by
          rcases List.mem_cons.mp hu with he | hm
          · exact absurd he.symm hu2
          · exact hm
        have h1 := iIn u hm
        rw [hts, ctP_middle] at h1
        simp only [hne, Bool.false_and, Bool.false_eq_true, if_false] at h1 ⊢
        omega
    · intro u
      dsimp only
      rw [ctP_middle, ctP_middle]
      by_cases hu : t.url = u
      · subst hu
        simp only [beq_self_eq_true, Bool.true_and, TaskPC.isInserted,
          TaskPC.isEngaged, if_true]
        omega
      · have hne : (t.url == u) = false := beq_eq_false_iff_ne.mpr hu
        have h1 := iFetch u
        rw [hts, ctP_middle, ctP_middle] at h1
        simp only [hne, Bool.false_and, Bool.false_eq_true, if_false] at h1 ⊢
        omega
    · intro u
      dsimp only
      rw [ctP_middle_set l1 l2 t TaskPC.inserted u TaskPC.isWip
            (by simp [hpc, TaskPC.isWip]),
          ctP_middle_set l1 l2 t TaskPC.inserted u TaskPC.isWipOrFin
            (by simp [hpc, TaskPC.isWipOrFin]), ← hts]
      exact iRec u
    · intro u
      dsimp only
      rw [ctP_middle_set l1 l2 t TaskPC.inserted u TaskPC.isFinished
        (by simp [hpc, TaskPC.isFinished]), ← hts]
      exact iFin u
    · intro τ hτ hfl
      dsimp only at hτ
      rcases mem_middle_split hτ with hm | hm | hm
      · exact iFail τ (mem_old hts (Or.inl hm)) hfl
      · subst hm
        simp at hfl
      · exact iFail τ (mem_old hts (Or.inr hm)) hfl
    · intro τ hτ hdp
      dsimp only at hτ ⊢
      rcases mem_middle_split hτ with hm | hm | hm
      · exact List.mem_cons_of_mem _ (iDup τ (mem_old hts (Or.inl hm)) hdp)
      · subst hm
        simp at hdp
      · exact List.mem_cons_of_mem _ (iDup τ (mem_old hts (Or.inr hm)) hdp)
  | fetchFail l1 l2 t hts hpc hf =>
    refine ⟨?_, ?_, ?_, ?_, ?_, ?_, ?_, ?_⟩
    · intro u
      have h1 := iEng u
      rw [hts] at h1
      dsimp only
      rw [ctP_middle_set l1 l2 t TaskPC.doneFailed u TaskPC.isEngaged
        (by simp [hpc, TaskPC.isEngaged])]
      exact h1
    · intro u hu
      have h1 := iOut u hu
      rw [hts] at h1
      dsimp only
      rw [ctP_middle_set l1 l2 t TaskPC.doneFailed u TaskPC.isEngaged
        (by simp [hpc, TaskPC.isEngaged])]
      exact h1
    · intro u hu
      have h1 := iIn u hu
      rw [hts] at h1
      dsimp only
      rw [ctP_middle_set l1 l2 t TaskPC.doneFailed u TaskPC.isEngaged
        (by simp [hpc, TaskPC.isEngaged])]
      exact h1
    · intro u
      dsimp only
      rw [ctP_middle, ctP_middle, scount_snoc]
      by_cases hu : t.url = u
      · subst hu
        have h1 := iFetch t.url
        rw [hts, ctP_middle, ctP_middle] at h1
        simp only [hpc, beq_self_eq_true, Bool.true_and, TaskPC.isInserted,
          TaskPC.isEngaged, if_true, Bool.false_eq_true, if_false] at h1 ⊢
        omega
      · have hne : (t.url == u) = false := beq_eq_false_iff_ne.mpr hu
        have h1 := iFetch u
        rw [hts, ctP_middle, ctP_middle] at h1
        simp only [hne, Bool.false_and, Bool.false_eq_true, if_false,
          Nat.add_zero] at h1 ⊢
        omega
    · intro u
      dsimp only
      rw [ctP_middle_set l1 l2 t TaskPC.doneFailed u TaskPC.isWip
            (by simp [hpc, TaskPC.isWip]),
          ctP_middle_set l1 l2 t TaskPC.doneFailed u TaskPC.isWipOrFin
            (by simp [hpc, TaskPC.isWipOrFin]), ← hts]
      exact iRec u
    · intro u
      dsimp only
      rw [ctP_middle_set l1 l2 t TaskPC.doneFailed u TaskPC.isFinished
        (by simp [hpc, TaskPC.isFinished]), ← hts]
      exact iFin u
    · intro τ hτ hfl
      dsimp only at hτ ⊢
      rcases mem_middle_split hτ with hm | hm | hm
      · exact iFail τ (mem_old hts (Or.inl hm)) hfl
      · subst hm
        exact hf
      · exact iFail τ (mem_old hts (Or.inr hm)) hfl
    · intro τ hτ hdp
      dsimp only at hτ ⊢
      rcases mem_middle_split hτ with hm | hm | hm
      · exact iDup τ (mem_old hts (Or.inl hm)) hdp
      · subst hm
        simp at hdp
      · exact iDup τ (mem_old hts (Or.inr hm)) hdp
  | fetchOk l1 l2 t page hts hpc hf =>
    refine ⟨?_, ?_, ?_, ?_, ?_, ?_, ?_, ?_⟩
    · intro u
      have h1 := iEng u
      rw [hts] at h1
      dsimp only
      rw [ctP_middle_set l1 l2 t (TaskPC.extracted (scrapedRecord page t.mtype)) u TaskPC.isEngaged
        (by simp [hpc, TaskPC.isEngaged])]
      exact h1
    · intro u hu
      have h1 := iOut u hu
      rw [hts] at h1
      dsimp only
      rw [ctP_middle_set l1 l2 t (TaskPC.extracted (scrapedRecord page t.mtype)) u TaskPC.isEngaged
        (by simp [hpc, TaskPC.isEngaged])]
      exact h1
    · intro u hu
      have h1 := iIn u hu
      rw [hts] at h1
      dsimp only
      rw [ctP_middle_set l1 l2 t (TaskPC.extracted (scrapedRecord page t.mtype)) u TaskPC.isEngaged
        (by simp [hpc, TaskPC.isEngaged])]
      exact h1
    · intro u
      dsimp only
      rw [ctP_middle, ctP_middle, scount_snoc]
      by_cases hu : t.url = u
      · subst hu
        have h1 := iFetch t.url
        rw [hts, ctP_middle, ctP_middle] at h1
        simp only [hpc, beq_self_eq_true, Bool.true_and, TaskPC.isInserted,
          TaskPC.isEngaged, if_true, Bool.false_eq_true, if_false] at h1 ⊢
        omega
      · have hne : (t.url == u) = false := beq_eq_false_iff_ne.mpr hu
        have h1 := iFetch u
        rw [hts, ctP_middle, ctP_middle] at h1
        simp only [hne, Bool.false_and, Bool.false_eq_true, if_false,
          Nat.add_zero] at h1 ⊢
        omega
    · intro u
      dsimp only
      rw [ctP_middle, ctP_middle]
      by_cases hu : t.url = u
      · subst hu
        have h1 := iRec t.url
        rw [hts, ctP_middle, ctP_middle] at h1
        simp only [hpc, beq_self_eq_true, Bool.true_and, TaskPC.isWip,
          TaskPC.isWipOrFin, if_true, Bool.false_eq_true, if_false] at h1 ⊢
        omega
      · have hne : (t.url == u) = false := beq_eq_false_iff_ne.mpr hu
        have h1 := iRec u
        rw [hts, ctP_middle, ctP_middle] at h1
        simp only [hne, Bool.false_and, Bool.false_eq_true, if_false,
          Nat.add_zero] at h1 ⊢
        omega
    · intro u
      dsimp only
      rw [ctP_middle_set l1 l2 t (TaskPC.extracted (scrapedRecord page t.mtype)) u TaskPC.isFinished
        (by simp [hpc, TaskPC.isFinished]), ← hts]
      exact iFin u
    · intro τ hτ hfl
      dsimp only at hτ ⊢
      rcases mem_middle_split hτ with hm | hm | hm
      · exact iFail τ (mem_old hts (Or.inl hm)) hfl
      · subst hm
        simp at hfl
      · exact iFail τ (mem_old hts (Or.inr hm)) hfl
    · intro τ hτ hdp
      dsimp only at hτ ⊢
      rcases mem_middle_split hτ with hm | hm | hm
      · exact iDup τ (mem_old hts (Or.inl hm)) hdp
      · subst hm
        simp at hdp
      · exact iDup τ (mem_old hts (Or.inr hm)) hdp
  | incr l1 l2 t d hts hpc =>
    refine ⟨?_, ?_, ?_, ?_, ?_, ?_, ?_, ?_⟩
    · intro u
      have h1 := iEng u
      rw [hts] at h1
      dsimp only
      rw [ctP_middle_set l1 l2 t (TaskPC.workerDone d) u TaskPC.isEngaged
        (by simp [hpc, TaskPC.isEngaged])]
      exact h1
    · intro u hu
      have h1 := iOut u hu
      rw [hts] at h1
      dsimp only
      rw [ctP_middle_set l1 l2 t (TaskPC.workerDone d) u TaskPC.isEngaged
        (by simp [hpc, TaskPC.isEngaged])]
      exact h1
    · intro u hu
      have h1 := iIn u hu
      rw [hts] at h1
      dsimp only
      rw [ctP_middle_set l1 l2 t (TaskPC.workerDone d) u TaskPC.isEngaged
        (by simp [hpc, TaskPC.isEngaged])]
      exact h1
    · intro u
      have h1 := iFetch u
      rw [hts] at h1
      dsimp only
      rw [ctP_middle_set l1 l2 t (TaskPC.workerDone d) u TaskPC.isInserted
            (by simp [hpc, TaskPC.isInserted]),
          ctP_middle_set l1 l2 t (TaskPC.workerDone d) u TaskPC.isEngaged
            (by simp [hpc, TaskPC.isEngaged])]
      exact h1
    · intro u
      have h1 := iRec u
      rw [hts] at h1
      dsimp only
      rw [ctP_middle_set l1 l2 t (TaskPC.workerDone d) u TaskPC.isWip
            (by simp [hpc, TaskPC.isWip]),
          ctP_middle_set l1 l2 t (TaskPC.workerDone d) u TaskPC.isWipOrFin
            (by simp [hpc, TaskPC.isWipOrFin])]
      exact h1
    · intro u
      have h1 := iFin u
      rw [hts] at h1
      dsimp only
      rw [ctP_middle_set l1 l2 t (TaskPC.workerDone d) u TaskPC.isFinished
        (by simp [hpc, TaskPC.isFinished])]
      exact h1
    · intro τ hτ hfl
      dsimp only at hτ ⊢
      rcases mem_middle_split hτ with hm | hm | hm
      · exact iFail τ (mem_old hts (Or.inl hm)) hfl
      · subst hm
        simp at hfl
      · exact iFail τ (mem_old hts (Or.inr hm)) hfl
    · intro τ hτ hdp
      dsimp only at hτ ⊢
      rcases mem_middle_split hτ with hm | hm | hm
      · exact iDup τ (mem_old hts (Or.inl hm)) hdp
      · subst hm
        simp at hdp
      · exact iDup τ (mem_old hts (Or.inr hm)) hdp
  | append l1 l2 t d hts hpc =>
    refine ⟨?_, ?_, ?_, ?_, ?_, ?_, ?_, ?_⟩
    · intro u
      have h1 := iEng u
      rw [hts] at h1
      dsimp only
      rw [ctP_middle_set l1 l2 t TaskPC.finished u TaskPC.isEngaged
        (by simp [hpc, TaskPC.isEngaged])]
      exact h1
    · intro u hu
      have h1 := iOut u hu
      rw [hts] at h1
      dsimp only
      rw [ctP_middle_set l1 l2 t TaskPC.finished u TaskPC.isEngaged
        (by simp [hpc, TaskPC.isEngaged])]
      exact h1
    · intro u hu
      have h1 := iIn u hu
      rw [hts] at h1
      dsimp only
      rw [ctP_middle_set l1 l2 t TaskPC.finished u TaskPC.isEngaged
        (by simp [hpc, TaskPC.isEngaged])]
      exact h1
    · intro u
      have h1 := iFetch u
      rw [hts] at h1
      dsimp only
      rw [ctP_middle_set l1 l2 t TaskPC.finished u TaskPC.isInserted
            (by simp [hpc, TaskPC.isInserted]),
          ctP_middle_set l1 l2 t TaskPC.finished u TaskPC.isEngaged
            (by simp [hpc, TaskPC.isEngaged])]
      exact h1
    · intro u
      dsimp only
      rw [ctP_middle, ctP_middle, recCount_snoc]
      by_cases hu : t.url = u
      · subst hu
        have h1 := iRec t.url
        rw [hts, ctP_middle, ctP_middle] at h1
        simp only [hpc, beq_self_eq_true, Bool.true_and, TaskPC.isWip,
          TaskPC.isWipOrFin, if_true, Bool.false_eq_true, if_false] at h1 ⊢
        omega
      · have hne : (t.url == u) = false := beq_eq_false_iff_ne.mpr hu
        have h1 := iRec u
        rw [hts, ctP_middle, ctP_middle] at h1
        simp only [hne, Bool.false_and, Bool.false_eq_true, if_false,
          Nat.add_zero] at h1 ⊢
        omega
    · intro u
      dsimp only
      rw [ctP_middle, recCount_snoc]
      by_cases hu : t.url = u
      · subst hu
        have h1 := iFin t.url
        rw [hts, ctP_middle] at h1
        simp only [hpc, beq_self_eq_true, Bool.true_and, TaskPC.isFinished,
          if_true, Bool.false_eq_true, if_false] at h1 ⊢
        omega
      · have hne : (t.url == u) = false := beq_eq_false_iff_ne.mpr hu
        have h1 := iFin u
        rw [hts, ctP_middle] at h1
        simp only [hne, Bool.false_and, Bool.false_eq_true, if_false,
          Nat.add_zero] at h1 ⊢
        omega
    · intro τ hτ hfl
      dsimp only at hτ ⊢
      rcases mem_middle_split hτ with hm | hm | hm
      · exact iFail τ (mem_old hts (Or.inl hm)) hfl
      · subst hm
        simp at hfl
      · exact iFail τ (mem_old hts (Or.inr hm)) hfl
    · intro τ hτ hdp
      dsimp only at hτ ⊢
      rcases mem_middle_split hτ with hm | hm | hm
      · exact iDup τ (mem_old hts (Or.inl hm)) hdp
      · subst hm
        simp at hdp
      · exact iDup τ (mem_old hts (Or.inr hm)) hdp


theorem ctP_init_zero (us : List (String × String)) (u : String)
    (p : TaskPC → Bool) (hp : p TaskPC.start = false) :
    ctP (initCState us).tasks u p = 0 := by
  unfold ctP initCState
  dsimp only
  rw [List.countP_eq_zero]
  intro τ hτ
  obtain ⟨q, hq, rfl⟩ := List.mem_map.mp hτ
  simp [hp]

theorem visitedInv_init (fetch : String → Option Page)
    (us : List (String × String)) : visitedInv fetch (initCState us) := by
  refine ⟨?_, ?_, ?_, ?_, ?_, ?_, ?_, ?_⟩
  · intro u
    rw [ctP_init_zero us u _ rfl]
    omega
  · intro u hu
    exact ctP_init_zero us u _ rfl
  · intro u hu
    simp [initCState] at hu
  · intro u
    rw [ctP_init_zero us u _ rfl, ctP_init_zero us u _ rfl]
    simp [initCState, scount]
  · intro u
    rw [ctP_init_zero us u _ rfl, ctP_init_zero us u _ rfl]
    simp [initCState, recCount]
  · intro u
    rw [ctP_init_zero us u _ rfl]
    exact Nat.zero_le _
  · intro τ hτ hfl
    simp only [initCState] at hτ
    obtain ⟨q, hq, rfl⟩ := List.mem_map.mp hτ
    simp at hfl
  · intro τ hτ hdp
    simp only [initCState] at hτ
    obtain ⟨q, hq, rfl⟩ := List.mem_map.mp hτ
    simp at hdp

theorem visitedInv_reachable {fetch : String → Option Page}
    {us : List (String × String)} {s : CState}
    (h : Reachable fetch (initCState us) s) : visitedInv fetch s := by
  induction h with
  | refl => exact visitedInv_init fetch us
  | tail h1 hstep ih => exact visitedInv_step hstep ih

/-- Claim C5, counterexample: the URL `"u"` is presented twice to the
Scrape phase and the run completes (every task terminal), but because
the fetcher fails, zero — not exactly one — `MemberRecord` is
produced for it. -/
theorem c5_counterexample :
    Reachable fetchNever (initCState [("u", "General"), ("u", "General")]) c5bad ∧
    (∀ t ∈ c5bad.tasks, t.pc.isTerminal = true) ∧
    recCount c5bad.scraped_data "u" = 0 := by
  refine ⟨?_, by decide, by decide⟩
  refine Relation.ReflTransGen.head
    (Step.checkInsert _ []
      [{ url := "u", mtype := "General", pc := TaskPC.start }]
      { url := "u", mtype := "General", pc := TaskPC.start }
      rfl rfl (by simp [initCState])) ?_
  refine Relation.ReflTransGen.head
    (Step.fetchFail _ []
      [{ url := "u", mtype := "General", pc := TaskPC.start }]
      { url := "u", mtype := "General", pc := TaskPC.inserted }
      rfl rfl rfl) ?_
  exact Relation.ReflTransGen.head
    (Step.checkDup _
      [{ url := "u", mtype := "General", pc := TaskPC.doneFailed }] []
      { url := "u", mtype := "General", pc := TaskPC.start }
      rfl rfl (by simp))
    Relation.ReflTransGen.refl

/-- Claim C5, amended: in every reachable state of a Scrape phase, for
every URL `u`, the fetch work is performed at most once and at most
one `MemberRecord` for `u` is stored; when the run has completed
(every task terminal), some task carries `u` and the fetcher succeeds
for `u`, exactly one record for `u` is stored; and a submitted task
that finds its URL already in the visited set steps to the
duplicate-skipped return leaving every shared-state component
unchanged. -/
theorem c5_amended (fetch : String → Option Page)
    (us : List (String × String)) (s : CState) (u : String)
    (h : Reachable fetch (initCState us) s) :
    scount s.fetchLog u ≤ 1 ∧
    recCount s.scraped_data u ≤ 1 ∧
    ((∀ t ∈ s.tasks, t.pc.isTerminal = true) → (∃ t ∈ s.tasks, t.url = u) →
       (∃ page, fetch u = some page) → recCount s.scraped_data u = 1) ∧
    (∀ l1 l2 t, s.tasks = l1 ++ t :: l2 → t.pc = TaskPC.start →
       t.url ∈ s.scraped_urls →
       ∃ s2, Step fetch s s2 ∧ s2.scraped_urls = s.scraped_urls ∧
         s2.scraped_data = s.scraped_data ∧ s2.failed_urls = s.failed_urls ∧
         s2.progress_counter = s.progress_counter ∧ s2.fetchLog = s.fetchLog ∧
         s2.tasks = l1 ++ { t with pc := TaskPC.doneDup } :: l2) := by
  obtain ⟨iEng, iOut, iIn, iFetch, iRec, iFin, iFail, iDup⟩ := visitedInv_reachable h
  have hwof : ctP s.tasks u TaskPC.isWipOrFin ≤ ctP s.tasks u TaskPC.isEngaged :=
    ctP_mono s.tasks u wipOrFin_engaged
  have hfetchle : scount s.fetchLog u ≤ 1 := by
    have := iFetch u
    have := iEng u
    omega
  have hrecle : recCount s.scraped_data u ≤ 1 := by
    have := iRec u
    have := iEng u
    omega
  refine ⟨hfetchle, hrecle, ?_, ?_⟩
  · rintro hterm ⟨t0, ht0, hu0⟩ ⟨page, hpage⟩
    have hfin : 0 < ctP s.tasks u TaskPC.isFinished := by
      have hterm0 := hterm t0 ht0
      have hvis : u ∈ s.scraped_urls := by
        cases hpc0 : t0.pc with
        | doneDup =>
          rw [← hu0]
          exact iDup t0 ht0 hpc0
        | doneFailed =>
          exfalso
          have hnone := iFail t0 ht0 hpc0
          rw [hu0, hpage] at hnone
          exact Option.noConfusion hnone
        | finished =>
          rw [← hu0]
          by_contra hnv
          have h0 := iOut t0.url hnv
          have hpos := ctP_pos (p := TaskPC.isEngaged) t0 ht0 rfl (by rw [hpc0]; rfl)
          omega
        | start => rw [hpc0] at hterm0; exact Bool.noConfusion hterm0
        | inserted => rw [hpc0] at hterm0; exact Bool.noConfusion hterm0
        | extracted d => rw [hpc0] at hterm0; exact Bool.noConfusion hterm0
        | workerDone d => rw [hpc0] at hterm0; exact Bool.noConfusion hterm0
      have heng1 := iIn u hvis
      obtain ⟨t1, ht1, hu1, hp1⟩ := ctP_pos_elim
        (by omega : 0 < ctP s.tasks u TaskPC.isEngaged)
      have hterm1 := hterm t1 ht1
      cases hpc1 : t1.pc with
      | finished => exact ctP_pos t1 ht1 hu1 (by rw [hpc1]; rfl)
      | doneFailed =>
        exfalso
        have hnone := iFail t1 ht1 hpc1
        rw [hu1, hpage] at hnone
        exact Option.noConfusion hnone
      | doneDup => rw [hpc1] at hp1; exact Bool.noConfusion hp1
      | start => rw [hpc1] at hp1; exact Bool.noConfusion hp1
      | inserted => rw [hpc1] at hterm1; exact Bool.noConfusion hterm1
      | extracted d => rw [hpc1] at hterm1; exact Bool.noConfusion hterm1
      | workerDone d => rw [hpc1] at hterm1; exact Bool.noConfusion hterm1
    have hfle := iFin u
    omega
  · intro l1 l2 t hts hpc hv
    exact ⟨_, Step.checkDup s l1 l2 t hts hpc hv, rfl, rfl, rfl, rfl, rfl, rfl⟩


/-- Witness for the amended C5 theorem: a completed two-duplicate run
against the always-succeeding fetcher stores exactly one record for
`"u"`. -/
theorem c5_amended_witness : recCount c5good.scraped_data "u" = 1 := by
  have hreach : Reachable fetchAlways
      (initCState [("u", "General"), ("u", "General")]) c5good := by
    refine Relation.ReflTransGen.head
      (Step.checkInsert _ []
        [{ url := "u", mtype := "General", pc := TaskPC.start }]
        { url := "u", mtype := "General", pc := TaskPC.start }
        rfl rfl (by simp [initCState])) ?_
    refine Relation.ReflTransGen.head
      (Step.fetchOk _ []
        [{ url := "u", mtype := "General", pc := TaskPC.start }]
        { url := "u", mtype := "General", pc := TaskPC.inserted }
        pageEmpty rfl rfl rfl) ?_
    refine Relation.ReflTransGen.head
      (Step.incr _ []
        [{ url := "u", mtype := "General", pc := TaskPC.start }]
        { url := "u", mtype := "General", pc := TaskPC.extracted recEmptyGeneral }
        recEmptyGeneral rfl rfl) ?_
    refine Relation.ReflTransGen.head
      (Step.append _ []
        [{ url := "u", mtype := "General", pc := TaskPC.start }]
        { url := "u", mtype := "General", pc := TaskPC.workerDone recEmptyGeneral }
        recEmptyGeneral rfl rfl) ?_
    exact Relation.ReflTransGen.head
      (Step.checkDup _
        [{ url := "u", mtype := "General", pc := TaskPC.finished }] []
        { url := "u", mtype := "General", pc := TaskPC.start }
        rfl rfl (by simp))
      Relation.ReflTransGen.refl
  exact (c5_amended fetchAlways [("u", "General"), ("u", "General")] c5good "u"
      hreach).2.2.1
    (by decide)
    ⟨{ url := "u", mtype := "General", pc := TaskPC.finished }, by decide, rfl⟩
    ⟨pageEmpty, rfl⟩

end TAAN
